import Mathlib

/-!
Verification of the multi-source timezone consensus resolver from
`src/geoip-services.js` and the static-fallback lookup from `src/utils.js`.

The asynchronous JavaScript is shallowly embedded as pure functions:
each provider fetch (`fetchFromService`) is represented by its settlement,
a `TimedAttempt` carrying the absolute completion time of the underlying
promise and its settled value (`none` for the Absent outcome — timeout,
network failure, malformed payload or missing timezone all collapse to
`null` in the source).  The `for await … of raceWithTimeout(...)` loop
awaits the per-provider promises in registration order, racing each only
against the shared total-timeout promise; `deliverySchedule` reproduces
exactly that control flow, recording for every yielded outcome the absolute
time at which the `await` completes.  JavaScript `Map` tally state is
modelled as an insertion-ordered association list, mirroring `Map`
iteration order.  The wall-clock `responseTime` field of the source result
is not modelled (pure wall-clock observability, referenced by no claim).
-/

/-- `LocationAttributes` as produced by every provider's `parseGeo`
(`src/geoip-services.js`): five optional strings. -/
structure Geo where
  country : Option String
  countryRegion : Option String
  city : Option String
  latitude : Option String
  longitude : Option String
deriving DecidableEq, Repr

/-- The value `fetchFromService` resolves with on success
(`return { timezone, geo, service: service.name }`). -/
structure FetchResult where
  timezone : String
  geo : Geo
  service : String
deriving DecidableEq, Repr

/-- One provider attempt: the absolute time (measured from the start of the
resolution call) at which `fetchFromService`'s promise settles, and the
settled value — `none` models the `null` returned on any failure path. -/
structure TimedAttempt where
  time : Nat
  outcome : Option FetchResult
deriving DecidableEq, Repr

/-- The body of `raceWithTimeout` (`src/geoip-services.js:187-207`): the
`for` loop awaits each provider promise in registration order, racing it
against the single `timeoutPromise` that rejects at absolute time
`totalTimeout`.  The accumulator `c` is the absolute time at which the
previous `await` completed; an already-settled promise is consumed
immediately (delivery at `max c a.time`), and the first promise that would
settle at or after the deadline makes the race reject, which `break`s the
loop.  Each list entry is `(delivery time, yielded value)`. -/
def deliverySchedule : List TimedAttempt → Nat → Nat → List (Nat × Option FetchResult)
  | [], _, _ => []
  | a :: rest, totalTimeout, c =>
      if a.time < totalTimeout then
        (max c a.time, a.outcome) :: deliverySchedule rest totalTimeout (max c a.time)
      else []

/-- The sequence of values yielded by `raceWithTimeout(promises, totalTimeout)`
to the `for await` consumer, in yield order. -/
def raceWithTimeout (promises : List TimedAttempt) (totalTimeout : Nat) :
    List (Option FetchResult) :=
  (deliverySchedule promises totalTimeout 0).map (·.2)

/-- `tallyMap.get(tz) || 0` on the insertion-ordered association list that
models the JavaScript `Map`. -/
def tallyGet (m : List (String × Nat)) (tz : String) : Nat :=
  match m with
  | [] => 0
  | (k, v) :: rest => if k = tz then v else tallyGet rest tz

/-- `tallyMap.set(tz, v)`: update in place (a JavaScript `Map` keeps the
original insertion position of an existing key), else append. -/
def tallySet (m : List (String × Nat)) (tz : String) (v : Nat) : List (String × Nat) :=
  match m with
  | [] => [(tz, v)]
  | (k, w) :: rest => if k = tz then (k, v) :: rest else (k, w) :: tallySet rest tz v

/-- One observed outcome's effect on the tally:
`tallyMap.set(tz, (tallyMap.get(tz) || 0) + 1)`. -/
def tallyStep (m : List (String × Nat)) (x : FetchResult) : List (String × Nat) :=
  tallySet m x.timezone (tallyGet m x.timezone + 1)

/-- The tally accumulated from a list of observed results, starting empty. -/
def tallyOf (rs : List FetchResult) : List (String × Nat) :=
  rs.foldl tallyStep []

/-- The result object built by `getTimezoneByConsensus`.  `timezone` is an
`Option` because the plurality fallback initialises `bestTimezone = null`,
and `geo` because `results.find(...)?.geo` can denote `undefined`. -/
structure ConsensusResult where
  timezone : Option String
  geo : Option Geo
  confidence : ℚ
  sources : Nat
deriving DecidableEq, Repr

/-- Exit state of the `for await` tally loop: either the early-majority
`return` fired with a finished result, or the supervised sequence was
exhausted with the loop state (`completedCount`, `results`, `tallyMap`). -/
inductive LoopExit where
  | early (r : ConsensusResult)
  | exhausted (completed : Nat) (results : List FetchResult) (tally : List (String × Nat))
deriving DecidableEq, Repr

/-- The `for await (const result of raceWithTimeout(...))` loop of
`getTimezoneByConsensus` (`src/geoip-services.js:134-155`): skip `null`
results, push observed ones, bump the tally, and `return` as soon as
`count + 1 >= majority`. -/
def tallyLoop (n maj : Nat) :
    List (Option FetchResult) → Nat → List FetchResult → List (String × Nat) → LoopExit
  | [], c, res, m => .exhausted c res m
  | none :: rest, c, res, m => tallyLoop n maj rest c res m
  | some x :: rest, c, res, m =>
      let k := tallyGet m x.timezone
      if k + 1 ≥ maj then
        .early ⟨some x.timezone, some x.geo, ((k + 1 : Nat) : ℚ) / (n : ℚ), c + 1⟩
      else
        tallyLoop n maj rest (c + 1) (res ++ [x]) (tallySet m x.timezone (k + 1))

/-- One iteration of the plurality-fallback scan
(`src/geoip-services.js:163-169`): a strictly greater count replaces the
current best and recomputes `bestGeo` as `results.find(r => r.timezone ===
timezone)?.geo`. -/
def pluralityStep (results : List FetchResult) (acc : Option String × Nat × Option Geo)
    (e : String × Nat) : Option String × Nat × Option Geo :=
  if e.2 > acc.2.1 then
    (some e.1, e.2, (results.find? (fun r => r.timezone == e.1)).map (·.geo))
  else acc

/-- The full fallback scan over `tallyMap.entries()` in insertion order,
starting from `bestTimezone = null, maxCount = 0, bestGeo = null`. -/
def pluralityPick (m : List (String × Nat)) (results : List FetchResult) :
    Option String × Nat × Option Geo :=
  m.foldl (pluralityStep results) (none, 0, none)

/-- `Math.ceil(GEOIP_SERVICES.length / 2)`; for a natural `n`,
`⌈n / 2⌉ = (n + 1) / 2` in integer arithmetic. -/
def majority (n : Nat) : Nat := (n + 1) / 2

/-- Outcome of a consensus-mode call: a returned result or the
`throw new Error('All GeoIP services failed or timed out')`. -/
inductive ConsensusOutcome where
  | success (r : ConsensusResult)
  | allFailed
deriving DecidableEq, Repr

/-- `getTimezoneByConsensus` (`src/geoip-services.js:115-182`), parameterised
by the vector of provider attempts (one per registered provider, in
registration order) standing for `GEOIP_SERVICES.map(service =>
fetchFromService(ip, service, timeout))`.  The registered provider count is
`attempts.length`. -/
def getTimezoneByConsensus (attempts : List TimedAttempt) (totalTimeout : Nat) :
    ConsensusOutcome :=
  let n := attempts.length
  match tallyLoop n (majority n) (raceWithTimeout attempts totalTimeout) 0 [] [] with
  | .early r => .success r
  | .exhausted c res m =>
      if m.isEmpty then .allFailed
      else
        let p := pluralityPick m res
        .success ⟨p.1, p.2.2, ((p.2.1 : Nat) : ℚ) / (n : ℚ), c⟩

/-- Outcome of `getTimezoneFirst`: the value returned, the rejection thrown
when the first settled wrapped promise was a failed attempt
(`throw new Error('Service failed')`), or — for an empty provider list —
a `Promise.race([])` that never settles. -/
inductive FirstOutcome where
  | success (timezone : String) (geo : Geo) (service : String)
  | serviceFailed
  | pending
deriving DecidableEq, Repr

/-- `Promise.race` over the wrapped attempts of `getTimezoneFirst`
(`src/geoip-services.js:220-226`): the race adopts the first wrapped
promise to settle — fulfilment and rejection alike.  Each wrapped promise
settles exactly when the underlying attempt does, so the winner is the
attempt with the minimal settlement time, lowest registration index first
on ties. -/
def raceFirst : List TimedAttempt → Option TimedAttempt
  | [] => none
  | a :: rest =>
      match raceFirst rest with
      | none => some a
      | some b => if b.time < a.time then some b else some a

/-- `getTimezoneFirst` (`src/geoip-services.js:215-233`): await the race; a
winning non-null attempt is returned, a winning null attempt has its
wrapper `throw new Error('Service failed')`, which rejects the race. -/
def getTimezoneFirst (attempts : List TimedAttempt) : FirstOutcome :=
  match raceFirst attempts with
  | none => .pending
  | some a =>
      match a.outcome with
      | some r => .success r.timezone r.geo r.service
      | none => .serviceFailed

/-! ### The static-fallback lookup `getTimezone` (`src/utils.js:27-53`) -/

/-- JavaScript truthiness of an optional string field: defined and
non-empty. -/
def truthy : Option String → Bool
  | none => false
  | some s => !(s == "")

/-- The argument shape of `utils.getTimezone`: the four fields the function
reads, each possibly `undefined`. -/
structure GeoInput where
  cfTimezone : Option String
  country : Option String
  countryRegion : Option String
  city : Option String
deriving DecidableEq, Repr

/-- Modelled from the spec: the static country/region/city → timezone lookup
tables imported from `./timezone-data`, a file of this repository that is
not under `src/`.  The spec treats them as opaque pure lookup tables
("a pure lookup table consulted as a fallback data source"), so they are
modelled as arbitrary partial maps; `COUNTRY_REGION_TIMEZONE` maps a
country code to an inner region map. -/
structure TimezoneTables where
  CITY_TIMEZONE : String → Option String
  COUNTRY_TIMEZONE : String → Option String
  COUNTRY_REGION_TIMEZONE : String → Option (String → Option String)

/-- The `COUNTRY_REGION_TIMEZONE[geo.country]?.[geo.countryRegion]` chain of
step 2 of `getTimezone`, guarded by `geo.country && geo.countryRegion`
exactly as in the source. -/
def regionEntry (tbl : TimezoneTables) (geo : GeoInput) : Option String :=
  if truthy geo.country && truthy geo.countryRegion then
    match tbl.COUNTRY_REGION_TIMEZONE (geo.country.getD "") with
    | some regionMap => regionMap (geo.countryRegion.getD "")
    | none => none
  else none

/-- `getTimezone` (`src/utils.js:27-53`): the five-step cascade.  Every
`return` of a looked-up value is guarded by JavaScript truthiness of that
value, so the function can only return a truthy string or `'UTC'`. -/
def getTimezone (tbl : TimezoneTables) (geo : GeoInput) : String :=
  if truthy geo.cfTimezone then geo.cfTimezone.getD ""
  else if truthy (regionEntry tbl geo) then (regionEntry tbl geo).getD ""
  else if truthy geo.city && truthy (tbl.CITY_TIMEZONE (geo.city.getD "")) then
    (tbl.CITY_TIMEZONE (geo.city.getD "")).getD ""
  else if truthy geo.country && truthy (tbl.COUNTRY_TIMEZONE (geo.country.getD "")) then
    (tbl.COUNTRY_TIMEZONE (geo.country.getD "")).getD ""
  else "UTC"

/-! ### Helper notions used by the statements -/

/-- The observed (non-`Absent`) outcomes of a yielded sequence, in arrival
order. -/
def observedOf (l : List (Option FetchResult)) : List FetchResult :=
  l.filterMap id

/-- Number of results in `rs` voting for timezone `tz`. -/
def countTz (rs : List FetchResult) (tz : String) : Nat :=
  rs.countP (fun r => r.timezone == tz)

/-- The maximal count in the tally (`0` for an empty tally). -/
def maxCount (m : List (String × Nat)) : Nat :=
  m.foldl (fun a e => max a e.2) 0

/-- The distinct elements of `l` in order of first occurrence. -/
def firstOccurrences (l : List String) : List String :=
  l.foldl (fun acc z => if z ∈ acc then acc else acc ++ [z]) []


/-! ### Concrete fixtures used in counterexamples and witnesses -/

def gLon1 : Geo := ⟨some "GB", some "ENG", some "London", none, none⟩

def gLon2 : Geo := ⟨some "GB", some "ENG", some "Leeds", none, none⟩

def gLon3 : Geo := ⟨some "GB", none, none, none, none⟩

def gPar4 : Geo := ⟨some "FR", none, some "Paris", none, none⟩

def gPar5 : Geo := ⟨some "FR", none, some "Lyon", none, none⟩

def rLon1 : FetchResult := ⟨"Europe/London", gLon1, "ipapi.co"⟩

def rLon2 : FetchResult := ⟨"Europe/London", gLon2, "ipwho.is"⟩

def rLon3 : FetchResult := ⟨"Europe/London", gLon3, "ip-api.com"⟩

def rPar4 : FetchResult := ⟨"Europe/Paris", gPar4, "reallyfreegeoip.org"⟩

def rPar5 : FetchResult := ⟨"Europe/Paris", gPar5, "freeipapi.com"⟩

/-- Five providers, three London answers then two Paris answers, all
completing before the deadline. -/
def attsLondon : List TimedAttempt :=
  [⟨1, some rLon1⟩, ⟨2, some rLon2⟩, ⟨3, some rLon3⟩, ⟨4, some rPar4⟩, ⟨5, some rPar5⟩]

def gTok1 : Geo := ⟨some "JP", none, some "Tokyo", none, none⟩

def gTok2 : Geo := ⟨some "JP", none, some "Osaka", none, none⟩

def gSeo1 : Geo := ⟨some "KR", none, some "Seoul", none, none⟩

def gSeo2 : Geo := ⟨some "KR", none, some "Busan", none, none⟩

def rTok1 : FetchResult := ⟨"Asia/Tokyo", gTok1, "ipapi.co"⟩

def rTok2 : FetchResult := ⟨"Asia/Tokyo", gTok2, "reallyfreegeoip.org"⟩

def rSeo1 : FetchResult := ⟨"Asia/Seoul", gSeo1, "ipwho.is"⟩

def rSeo2 : FetchResult := ⟨"Asia/Seoul", gSeo2, "ip-api.com"⟩

/-- Five providers with arrival order Tokyo, Seoul, Seoul, Tokyo, then an
Absent outcome: a 2–2 tie in which Seoul is the first identifier to reach
the maximal count. -/
def attsTie : List TimedAttempt :=
  [⟨1, some rTok1⟩, ⟨2, some rSeo1⟩, ⟨3, some rSeo2⟩, ⟨4, some rTok2⟩, ⟨5, none⟩]

/-- Five providers: an Absent response first, then three London answers
before the deadline `8`, and a straggler completing after it. -/
def attsAbsent : List TimedAttempt :=
  [⟨1, none⟩, ⟨2, some rLon1⟩, ⟨3, some rLon2⟩, ⟨4, some rLon3⟩, ⟨9, some rPar4⟩]

/-- Three providers agreeing on the timezone but carrying different
location attributes. -/
def attsGeoDup : List TimedAttempt :=
  [⟨1, some rLon1⟩, ⟨2, some rLon2⟩, ⟨3, some rLon3⟩]

/-- A slow early-registered provider (completes at time 5) ahead of a fast
later-registered one (completes at time 1). -/
def attsSlowFirst : List TimedAttempt := [⟨5, some rLon1⟩, ⟨1, some rPar4⟩]

/-- Two providers, the second completing only after the deadline `8`. -/
def attsLate : List TimedAttempt := [⟨1, some rLon1⟩, ⟨9, some rPar4⟩]

/-- Two provider attempts for first-success mode: the earlier one fails,
the later one succeeds. -/
def attsFirstFail : List TimedAttempt := [⟨1, none⟩, ⟨2, some rLon2⟩]

/-- Lookup tables with no entries at all. -/
def tblEmpty : TimezoneTables := ⟨fun _ => none, fun _ => none, fun _ => none⟩

/-- A request record with every field undefined. -/
def geoEmpty : GeoInput := ⟨none, none, none, none⟩

/-! ### Tally lemmas -/

theorem tallyGet_tallySet (m : List (String × Nat)) (k : String) (v : Nat) (k' : String) :
    tallyGet (tallySet m k v) k' = if k = k' then v else tallyGet m k' := by
  induction m with
  | nil => simp [tallySet, tallyGet]
  | cons e rest ih =>
    obtain ⟨k₀, v₀⟩ := e
    rcases eq_or_ne k₀ k with h₀ | h₀
    · subst h₀
      rcases eq_or_ne k₀ k' with h' | h' <;> simp [tallySet, tallyGet, h']
    · rcases eq_or_ne k₀ k' with h' | h'
      · subst h'
        simp [tallySet, tallyGet, h₀, Ne.symm h₀]
      · simp [tallySet, tallyGet, h₀, h', ih]

theorem tallySet_ne_nil (m : List (String × Nat)) (k : String) (v : Nat) :
    tallySet m k v ≠ [] := by
  cases m with
  | nil => simp [tallySet]
  | cons e rest =>
    obtain ⟨k₀, v₀⟩ := e
    rcases eq_or_ne k₀ k with h | h <;> simp [tallySet, h]

theorem mem_tallySet (m : List (String × Nat)) (k : String) (v : Nat) (e : String × Nat)
    (he : e ∈ tallySet m k v) : e ∈ m ∨ e = (k, v) := by
  induction m with
  | nil =>
    simp [tallySet] at he
    exact Or.inr he
  | cons e₀ rest ih =>
    obtain ⟨k₀, v₀⟩ := e₀
    rcases eq_or_ne k₀ k with h | h
    · subst h
      simp [tallySet] at he
      rcases he with he | he
      · exact Or.inr (by simp [he])
      · exact Or.inl (by simp [he])
    · simp [tallySet, h] at he
      rcases he with he | he
      · exact Or.inl (by simp [he])
      · rcases ih he with h' | h'
        · exact Or.inl (by simp [h'])
        · exact Or.inr h'

theorem tallyKeys_tallySet (m : List (String × Nat)) (k : String) (v : Nat) :
    (tallySet m k v).map Prod.fst =
      if k ∈ m.map Prod.fst then m.map Prod.fst else m.map Prod.fst ++ [k] := by
  induction m with
  | nil => simp [tallySet]
  | cons e rest ih =>
    obtain ⟨k₀, v₀⟩ := e
    rcases eq_or_ne k₀ k with h | h
    · subst h
      simp [tallySet]
    · by_cases hk : k ∈ rest.map Prod.fst <;>
        simp [tallySet, h, hk, ih, Ne.symm h]

theorem nodup_tallyKeys_tallySet (m : List (String × Nat)) (k : String) (v : Nat)
    (h : (m.map Prod.fst).Nodup) : ((tallySet m k v).map Prod.fst).Nodup := by
  rw [tallyKeys_tallySet]
  by_cases hk : k ∈ m.map Prod.fst
  · simpa [hk]
  · simpa [hk] using List.Nodup.append h (List.nodup_singleton k) (by simpa using hk)

theorem tallyGet_of_mem (m : List (String × Nat)) (k : String) (v : Nat)
    (hnd : (m.map Prod.fst).Nodup) (hm : (k, v) ∈ m) : tallyGet m k = v := by
  induction m with
  | nil => simp at hm
  | cons e rest ih =>
    obtain ⟨k₀, v₀⟩ := e
    rw [List.map_cons, List.nodup_cons] at hnd
    rcases List.mem_cons.mp hm with h | h
    · cases h
      simp [tallyGet]
    · have hk : k₀ ≠ k := by
        intro hh
        subst hh
        exact hnd.1 (List.mem_map.mpr ⟨(k₀, v), h, rfl⟩)
      simp only [tallyGet, if_neg hk]
      exact ih hnd.2 h

theorem tallyGet_foldl_tallyStep (rs : List FetchResult) (m : List (String × Nat))
    (tz : String) :
    tallyGet (rs.foldl tallyStep m) tz = tallyGet m tz + countTz rs tz := by
  induction rs generalizing m with
  | nil => simp [countTz]
  | cons x rest ih =>
    rw [List.foldl_cons, ih]
    unfold tallyStep
    rw [tallyGet_tallySet]
    rcases eq_or_ne x.timezone tz with h | h
    · simp [countTz, List.countP_cons, h, Nat.add_comm, Nat.add_assoc, Nat.add_left_comm]
    · simp [countTz, List.countP_cons, h, if_neg h]

theorem foldl_tallyStep_pos (rs : List FetchResult) (m : List (String × Nat))
    (h : ∀ e ∈ m, 1 ≤ e.2) : ∀ e ∈ rs.foldl tallyStep m, 1 ≤ e.2 := by
  induction rs generalizing m with
  | nil => exact h
  | cons x rest ih =>
    rw [List.foldl_cons]
    refine ih _ ?_
    intro e he
    rcases mem_tallySet _ _ _ _ he with h' | h'
    · exact h e h'
    · simp [h']

theorem foldl_tallyStep_ne_nil (rs : List FetchResult) (m : List (String × Nat))
    (h : m ≠ []) : rs.foldl tallyStep m ≠ [] := by
  induction rs generalizing m with
  | nil => exact h
  | cons x rest ih =>
    rw [List.foldl_cons]
    exact ih _ (tallySet_ne_nil _ _ _)

theorem tallyOf_nil_iff (rs : List FetchResult) : tallyOf rs = [] ↔ rs = [] := by
  constructor
  · intro h
    cases rs with
    | nil => rfl
    | cons x rest =>
      exact absurd h (by
        unfold tallyOf
        rw [List.foldl_cons]
        exact foldl_tallyStep_ne_nil _ _ (tallySet_ne_nil _ _ _))
  · intro h
    subst h
    rfl

theorem nodup_tallyKeys_foldl (rs : List FetchResult) (m : List (String × Nat))
    (h : (m.map Prod.fst).Nodup) : ((rs.foldl tallyStep m).map Prod.fst).Nodup := by
  induction rs generalizing m with
  | nil => exact h
  | cons x rest ih =>
    rw [List.foldl_cons]
    exact ih _ (nodup_tallyKeys_tallySet _ _ _ h)

theorem tallyKeys_foldl_tallyStep (rs : List FetchResult) (m : List (String × Nat)) :
    (rs.foldl tallyStep m).map Prod.fst =
      rs.foldl (fun acc x => if x.timezone ∈ acc then acc else acc ++ [x.timezone])
        (m.map Prod.fst) := by
  induction rs generalizing m with
  | nil => rfl
  | cons x rest ih =>
    rw [List.foldl_cons, List.foldl_cons, ih]
    unfold tallyStep
    rw [tallyKeys_tallySet]

theorem tallyKeys_tallyOf (rs : List FetchResult) :
    (tallyOf rs).map Prod.fst = firstOccurrences (rs.map (·.timezone)) := by
  unfold tallyOf firstOccurrences
  rw [tallyKeys_foldl_tallyStep, List.foldl_map]
  rfl

/-! ### Loop lemmas -/

theorem tallyLoop_append (n maj : Nat) (l₁ l₂ : List (Option FetchResult)) (c : Nat)
    (res : List FetchResult) (m : List (String × Nat)) :
    tallyLoop n maj (l₁ ++ l₂) c res m =
      match tallyLoop n maj l₁ c res m with
      | .early r => .early r
      | .exhausted c' res' m' => tallyLoop n maj l₂ c' res' m' := by
  induction l₁ generalizing c res m with
  | nil => simp [tallyLoop]
  | cons o rest ih =>
    cases o with
    | none =>
      rw [List.cons_append]
      simpa only [tallyLoop] using ih c res m
    | some x =>
      rw [List.cons_append]
      simp only [tallyLoop]
      split
      · rfl
      · exact ih (c + 1) (res ++ [x]) (tallySet m x.timezone (tallyGet m x.timezone + 1))

theorem tallyLoop_exhausted_inv (n maj : Nat) (l : List (Option FetchResult)) (c : Nat)
    (res : List FetchResult) (m : List (String × Nat)) (c' : Nat) (res' : List FetchResult)
    (m' : List (String × Nat))
    (h : tallyLoop n maj l c res m = .exhausted c' res' m') :
    c' = c + (observedOf l).length ∧ res' = res ++ observedOf l ∧
      m' = (observedOf l).foldl tallyStep m := by
  induction l generalizing c res m with
  | nil =>
    simp only [tallyLoop] at h
    injection h with h1 h2 h3
    simp [observedOf, h1.symm, h2.symm, h3.symm]
  | cons o rest ih =>
    cases o with
    | none =>
      simp only [tallyLoop] at h
      simpa [observedOf] using ih c res m h
    | some x =>
      simp only [tallyLoop] at h
      split at h
      · exact absurd h (by simp)
      · have := ih (c + 1) (res ++ [x]) (tallySet m x.timezone (tallyGet m x.timezone + 1)) h
        simp only [observedOf, List.filterMap_cons] at this ⊢
        obtain ⟨h1, h2, h3⟩ := this
        refine ⟨by simpa [Nat.add_comm, Nat.add_assoc, Nat.add_left_comm] using h1, ?_, ?_⟩
        · simpa [List.append_assoc] using h2
        · simpa [tallyStep] using h3

theorem tallyLoop_all_none (n maj : Nat) (l : List (Option FetchResult)) (c : Nat)
    (res : List FetchResult) (m : List (String × Nat)) (h : ∀ o ∈ l, o = none) :
    tallyLoop n maj l c res m = .exhausted c res m := by
  induction l with
  | nil => rfl
  | cons o rest ih =>
    have ho : o = none := h o (by simp)
    subst ho
    simp only [tallyLoop]
    exact ih (fun o ho => h o (by simp [ho]))

theorem tallyLoop_early_split (n maj : Nat) (l : List (Option FetchResult)) (c : Nat)
    (res : List FetchResult) (m : List (String × Nat)) (r : ConsensusResult)
    (h : tallyLoop n maj l c res m = .early r) :
    ∃ l₁ x l₂ c₁ res₁ m₁, l = l₁ ++ some x :: l₂ ∧
      tallyLoop n maj l₁ c res m = .exhausted c₁ res₁ m₁ ∧
      maj ≤ tallyGet m₁ x.timezone + 1 ∧
      r = ⟨some x.timezone, some x.geo,
            ((tallyGet m₁ x.timezone + 1 : Nat) : ℚ) / (n : ℚ), c₁ + 1⟩ := by
  induction l generalizing c res m with
  | nil => exact absurd h (by simp [tallyLoop])
  | cons o rest ih =>
    cases o with
    | none =>
      simp only [tallyLoop] at h
      obtain ⟨l₁, x, l₂, c₁, res₁, m₁, h1, h2, h3, h4⟩ := ih c res m h
      exact ⟨none :: l₁, x, l₂, c₁, res₁, m₁, by simp [h1], by simpa [tallyLoop] using h2,
        h3, h4⟩
    | some x =>
      simp only [tallyLoop] at h
      split at h
      · rename_i hmaj
        injection h with h'
        exact ⟨[], x, rest, c, res, m, rfl, rfl, hmaj, h'.symm⟩
      · rename_i hmaj
        obtain ⟨l₁, x', l₂, c₁, res₁, m₁, h1, h2, h3, h4⟩ :=
          ih (c + 1) (res ++ [x]) (tallySet m x.timezone (tallyGet m x.timezone + 1)) h
        refine ⟨some x :: l₁, x', l₂, c₁, res₁, m₁, by simp [h1], ?_, h3, h4⟩
        simp only [tallyLoop]
        rw [if_neg hmaj]
        exact h2

/-! ### Plurality-fallback scan lemmas -/

theorem le_foldl_max (m : List (String × Nat)) (a : Nat) :
    a ≤ m.foldl (fun x e => max x e.2) a := by
  induction m generalizing a with
  | nil => exact Nat.le_refl a
  | cons e rest ih => exact le_trans (le_max_left a e.2) (ih (max a e.2))

theorem mem_le_foldl_max (m : List (String × Nat)) (a : Nat) (e : String × Nat)
    (he : e ∈ m) : e.2 ≤ m.foldl (fun x f => max x f.2) a := by
  induction m generalizing a with
  | nil => cases he
  | cons f rest ih =>
    rcases List.mem_cons.mp he with h | h
    · subst h
      exact le_trans (le_max_right a e.2) (le_foldl_max rest (max a e.2))
    · exact ih (max a f.2) h

theorem pluralityFold_const (res : List FetchResult) (m : List (String × Nat))
    (b : Option String) (mx : Nat) (g : Option Geo) (h : ∀ e ∈ m, e.2 ≤ mx) :
    m.foldl (pluralityStep res) (b, mx, g) = (b, mx, g) := by
  induction m with
  | nil => rfl
  | cons e rest ih =>
    rw [List.foldl_cons]
    have : pluralityStep res (b, mx, g) e = (b, mx, g) := by
      unfold pluralityStep
      rw [if_neg (by simpa using h e (by simp))]
    rw [this]
    exact ih (fun e he => h e (by simp [he]))

theorem pluralityFold_char (res : List FetchResult) (m : List (String × Nat))
    (b : Option String) (mx : Nat) (g : Option Geo)
    (h : mx < m.foldl (fun x e => max x e.2) mx) :
    ∃ tz M, m.find? (fun e => e.2 == m.foldl (fun x e => max x e.2) mx) = some (tz, M) ∧
      M = m.foldl (fun x e => max x e.2) mx ∧
      m.foldl (pluralityStep res) (b, mx, g) =
        (some tz, M, (res.find? (fun r => r.timezone == tz)).map (·.geo)) := by
  induction m generalizing b mx g with
  | nil => exact absurd h (by simp)
  | cons e rest ih =>
    by_cases he : mx < e.2
    · have hmax : max mx e.2 = e.2 := max_eq_right (Nat.le_of_lt he)
      have hMt : (e :: rest).foldl (fun x e => max x e.2) mx =
          rest.foldl (fun x e => max x e.2) e.2 := by
        rw [List.foldl_cons, hmax]
      have hstep : pluralityStep res (b, mx, g) e =
          (some e.1, e.2, (res.find? (fun r => r.timezone == e.1)).map (·.geo)) := by
        unfold pluralityStep
        rw [if_pos he]
      rcases lt_or_eq_of_le (le_foldl_max rest e.2) with hlt | heq
      · obtain ⟨tz, M, hf, hM, hres⟩ :=
          ih (some e.1) e.2 ((res.find? (fun r => r.timezone == e.1)).map (·.geo)) hlt
        refine ⟨tz, M, ?_, by rw [hM, hMt], ?_⟩
        · rw [hMt]
          rw [List.find?_cons_of_neg _ (by
            simp only [beq_iff_eq]
            exact Nat.ne_of_lt hlt)]
          exact hf
        · rw [List.foldl_cons, hstep]
          exact hres
      · have hall : ∀ f ∈ rest, f.2 ≤ e.2 := by
          intro f hf
          calc f.2 ≤ rest.foldl (fun x f => max x f.2) e.2 := mem_le_foldl_max rest e.2 f hf
            _ = e.2 := heq.symm
        refine ⟨e.1, e.2, ?_, by rw [hMt, ← heq], ?_⟩
        · rw [hMt]
          rw [List.find?_cons_of_pos _ (by
            simp only [beq_iff_eq]
            exact heq)]
        · rw [List.foldl_cons, hstep,
            pluralityFold_const res rest (some e.1) e.2
              ((res.find? (fun r => r.timezone == e.1)).map (·.geo)) hall]
    · have hmax : max mx e.2 = mx := max_eq_left (Nat.le_of_not_lt he)
      have hMt : (e :: rest).foldl (fun x e => max x e.2) mx =
          rest.foldl (fun x e => max x e.2) mx := by
        rw [List.foldl_cons, hmax]
      have hrest : mx < rest.foldl (fun x e => max x e.2) mx := by
        rw [hMt] at h
        exact h
      obtain ⟨tz, M, hf, hM, hres⟩ := ih b mx g hrest
      refine ⟨tz, M, ?_, by rw [hM, hMt], ?_⟩
      · rw [hMt]
        rw [List.find?_cons_of_neg _ (by
          simp only [beq_iff_eq]
          intro hc
          exact absurd (hc ▸ hrest) (Nat.not_lt_of_le (Nat.le_of_not_lt he)))]
        exact hf
      · rw [List.foldl_cons]
        have : pluralityStep res (b, mx, g) e = (b, mx, g) := by
          unfold pluralityStep
          rw [if_neg he]
        rw [this]
        exact hres

/-! ### Delivery-schedule lemmas -/

theorem deliverySchedule_length_le (l : List TimedAttempt) (T c : Nat) :
    (deliverySchedule l T c).length ≤ l.length := by
  induction l generalizing c with
  | nil => simp [deliverySchedule]
  | cons a rest ih =>
    simp only [deliverySchedule]
    split
    · simpa using ih (max c a.time)
    · simp

theorem deliverySchedule_yields (l : List TimedAttempt) (T c : Nat) :
    (deliverySchedule l T c).map (·.2) =
      (l.takeWhile (fun a => decide (a.time < T))).map (·.outcome) := by
  induction l generalizing c with
  | nil => simp [deliverySchedule]
  | cons a rest ih =>
    simp only [deliverySchedule, List.takeWhile]
    by_cases h : a.time < T
    · simp only [if_pos h, decide_eq_true h]
      simp [ih]
    · simp only [if_neg h, decide_eq_false h]
      simp

theorem deliverySchedule_times (l : List TimedAttempt) (T c : Nat) (i : Nat)
    (h : i < (deliverySchedule l T c).length) :
    ((deliverySchedule l T c).get ⟨i, h⟩).1 =
      (l.take (i + 1)).foldl (fun x a => max x a.time) c := by
  induction l generalizing c i with
  | nil => simp [deliverySchedule] at h
  | cons a rest ih =>
    by_cases ha : a.time < T
    · cases i with
      | zero =>
        have hd : deliverySchedule (a :: rest) T c =
            (max c a.time, a.outcome) :: deliverySchedule rest T (max c a.time) := by
          simp [deliverySchedule, ha]
        simp [hd, List.take, List.foldl]
      | succ j =>
        have hd : deliverySchedule (a :: rest) T c =
            (max c a.time, a.outcome) :: deliverySchedule rest T (max c a.time) := by
          simp [deliverySchedule, ha]
        have hj : j < (deliverySchedule rest T (max c a.time)).length := by
          rw [hd] at h
          simpa using Nat.lt_of_succ_lt_succ h
        calc ((deliverySchedule (a :: rest) T c).get ⟨j + 1, h⟩).1
            = ((deliverySchedule rest T (max c a.time)).get ⟨j, hj⟩).1 := by
              simp [hd]
          _ = (rest.take (j + 1)).foldl (fun x a => max x a.time) (max c a.time) :=
              ih (max c a.time) j hj
          _ = ((a :: rest).take (j + 1 + 1)).foldl (fun x a => max x a.time) c := by
              simp [List.take, List.foldl]
    · exfalso
      have : deliverySchedule (a :: rest) T c = [] := by simp [deliverySchedule, ha]
      rw [this] at h
      simp at h

theorem deliverySchedule_set_late (l : List TimedAttempt) (T c i t' : Nat)
    (o' : Option FetchResult) (ht' : T ≤ t')
    (hi : ∀ h : i < l.length, T ≤ (l.get ⟨i, h⟩).time) :
    deliverySchedule (l.set i ⟨t', o'⟩) T c = deliverySchedule l T c := by
  induction l generalizing c i with
  | nil => simp
  | cons a rest ih =>
    cases i with
    | zero =>
      have ha : ¬ a.time < T := Nat.not_lt_of_le (hi (by simp))
      have ht : ¬ t' < T := Nat.not_lt_of_le ht'
      simp [deliverySchedule, ha, ht]
    | succ j =>
      simp only [List.set]
      simp only [deliverySchedule]
      split
      · rw [ih (max c a.time) j (fun h => hi (by simpa using Nat.succ_lt_succ h))]
      · rfl

/-! ### Consensus-level helper lemmas -/

theorem consensus_early_step (attempts : List TimedAttempt) (T : Nat)
    (l₁ : List (Option FetchResult)) (x : FetchResult) (l₂ : List (Option FetchResult))
    (c : Nat) (res : List FetchResult) (m : List (String × Nat))
    (hs : raceWithTimeout attempts T = l₁ ++ some x :: l₂)
    (hl : tallyLoop attempts.length (majority attempts.length) l₁ 0 [] [] =
      .exhausted c res m)
    (hm : majority attempts.length ≤ tallyGet m x.timezone + 1) :
    getTimezoneByConsensus attempts T =
      .success ⟨some x.timezone, some x.geo,
        ((tallyGet m x.timezone + 1 : Nat) : ℚ) / (attempts.length : ℚ), c + 1⟩ := by
  simp only [getTimezoneByConsensus]
  rw [hs, tallyLoop_append, hl]
  simp only [tallyLoop]
  rw [if_pos hm]

theorem maxCount_pos (m : List (String × Nat)) (hm : m ≠ [])
    (hpos : ∀ e ∈ m, 1 ≤ e.2) : 0 < maxCount m := by
  obtain ⟨e, he⟩ := List.exists_mem_of_ne_nil m hm
  calc 0 < e.2 := hpos e he
    _ ≤ maxCount m := mem_le_foldl_max m 0 e he

theorem consensus_exhausted_char (attempts : List TimedAttempt) (T : Nat) (c : Nat)
    (res : List FetchResult) (m : List (String × Nat))
    (h : tallyLoop attempts.length (majority attempts.length)
          (raceWithTimeout attempts T) 0 [] [] = .exhausted c res m)
    (hm : m ≠ []) :
    ∃ tz M, m.find? (fun e => e.2 == maxCount m) = some (tz, M) ∧ M = maxCount m ∧
      getTimezoneByConsensus attempts T =
        .success ⟨some tz, (res.find? (fun r => r.timezone == tz)).map (·.geo),
          ((M : Nat) : ℚ) / (attempts.length : ℚ), c⟩ := by
  obtain ⟨hc, hres, hm'⟩ := tallyLoop_exhausted_inv _ _ _ _ _ _ _ _ _ h
  have hpos : ∀ e ∈ m, 1 ≤ e.2 := by
    rw [hm']
    exact foldl_tallyStep_pos _ _ (by simp)
  have h0 : 0 < maxCount m := maxCount_pos m hm hpos
  obtain ⟨tz, M, hf, hM, hfold⟩ := pluralityFold_char res m none 0 none h0
  refine ⟨tz, M, hf, hM, ?_⟩
  simp only [getTimezoneByConsensus]
  simp only [h]
  rw [if_neg (by simpa [List.isEmpty_iff] using hm)]
  unfold pluralityPick
  rw [hfold]

theorem raceWithTimeout_length_le (l : List TimedAttempt) (T : Nat) :
    (raceWithTimeout l T).length ≤ l.length := by
  unfold raceWithTimeout
  simpa using deliverySchedule_length_le l T 0

theorem exhausted_state_char (attempts : List TimedAttempt) (T : Nat) (c : Nat)
    (res : List FetchResult) (m : List (String × Nat))
    (h : tallyLoop attempts.length (majority attempts.length)
          (raceWithTimeout attempts T) 0 [] [] = .exhausted c res m) :
    res = observedOf (raceWithTimeout attempts T) ∧ c = res.length ∧
      (∀ tz, tallyGet m tz = countTz res tz) ∧ (∀ e ∈ m, 1 ≤ e.2) ∧
      (m.map Prod.fst).Nodup ∧
      m.map Prod.fst = firstOccurrences (res.map (·.timezone)) := by
  obtain ⟨hc, hres, hm'⟩ := tallyLoop_exhausted_inv _ _ _ _ _ _ _ _ _ h
  have hres' : res = observedOf (raceWithTimeout attempts T) := by simpa using hres
  refine ⟨hres', by simpa [hres'] using hc, ?_, ?_, ?_, ?_⟩
  · intro tz
    rw [hm', hres', tallyGet_foldl_tallyStep]
    simp [tallyGet]
  · rw [hm']
    exact foldl_tallyStep_pos _ _ (by simp)
  · rw [hm']
    exact nodup_tallyKeys_foldl _ _ (by simp)
  · rw [hm', hres']
    exact tallyKeys_tallyOf (observedOf (raceWithTimeout attempts T))

/-! ### Claim theorems -/

/-- C1: in consensus mode with `attempts.length` registered providers, as
soon as some identifier's tally count reaches `majority = ceil(N/2)` — the
supervised stream splits as `l₁ ++ some x :: rest`, processing `l₁` causes
no early return, and `x`'s vote brings its identifier's count to the
threshold — the engine immediately returns that identifier with
confidence `count / N`.  The conclusion is independent of `rest`, so the
remaining providers' outcomes are never consumed. -/
theorem consensus_early_majority_return (attempts : List TimedAttempt) (T : Nat)
    (l₁ : List (Option FetchResult)) (x : FetchResult) (rest : List (Option FetchResult))
    (c : Nat) (res : List FetchResult) (m : List (String × Nat))
    (hs : raceWithTimeout attempts T = l₁ ++ some x :: rest)
    (hl : tallyLoop attempts.length (majority attempts.length) l₁ 0 [] [] =
      .exhausted c res m)
    (hm : majority attempts.length ≤ tallyGet m x.timezone + 1) :
    getTimezoneByConsensus attempts T =
      .success ⟨some x.timezone, some x.geo,
        ((tallyGet m x.timezone + 1 : Nat) : ℚ) / (attempts.length : ℚ), c + 1⟩ :=
  consensus_early_step attempts T l₁ x rest c res m hs hl hm

/-- Witness for C1: five providers, three of them voting `Europe/London`;
the third London vote reaches the majority threshold 3 = ceil(5/2) and the
call returns immediately with confidence 3/5, the two Paris answers
unconsumed. -/
theorem consensus_early_majority_return_witness :
    getTimezoneByConsensus attsLondon 100 =
      .success ⟨some "Europe/London", some gLon3, 3 / 5, 3⟩ := by
  have h := consensus_early_majority_return attsLondon 100
    [some rLon1, some rLon2] rLon3 [some rPar4, some rPar5]
    2 [rLon1, rLon2] [("Europe/London", 2)]
    (by decide) (by decide) (by decide)
  simpa [tallyGet, rLon3, attsLondon] using h

/-- C2 (counterexample): observed arrival order Tokyo, Seoul, Seoul, Tokyo
with one Absent outcome gives a 2–2 tie.  Seoul is the first identifier to
reach the maximal count 2 while iterating observed outcomes in arrival
order (2 votes among the first three arrivals, when Tokyo has 1), so the
claim's tie-break names Seoul — but the call returns Tokyo. -/
theorem plurality_tiebreak_counterexample :
    getTimezoneByConsensus attsTie 100 =
      .success ⟨some "Asia/Tokyo", some gTok1, 2 / 5, 4⟩ ∧
    countTz (observedOf ((raceWithTimeout attsTie 100).take 3)) "Asia/Seoul" = 2 ∧
    countTz (observedOf ((raceWithTimeout attsTie 100).take 3)) "Asia/Tokyo" = 1 ∧
    countTz (observedOf (raceWithTimeout attsTie 100)) "Asia/Tokyo" = 2 ∧
    countTz (observedOf (raceWithTimeout attsTie 100)) "Asia/Seoul" = 2 ∧
    "Asia/Tokyo" ≠ "Asia/Seoul" := by
  refine ⟨?_, by decide, by decide, by decide, by decide, by decide⟩
  simp [getTimezoneByConsensus, raceWithTimeout, deliverySchedule, tallyLoop, tallyGet,
    tallySet, majority, pluralityPick, pluralityStep, attsTie, rTok1, rTok2, rSeo1, rSeo2]

/-- C2 (amended): when the supervised stream exhausts without majority and
the tally is non-empty, the engine returns the entry of the tally map with
the highest count, ties broken by tally-map insertion order — that is, by
the order in which each identifier FIRST APPEARED among observed outcomes
(`firstOccurrences`), not by which identifier first reached the maximal
count; confidence is `maxCount / N` and the winning count equals the
winner's number of votes among the observed results. -/
theorem plurality_fallback_first_encountered (attempts : List TimedAttempt) (T : Nat)
    (c : Nat) (res : List FetchResult) (m : List (String × Nat))
    (h : tallyLoop attempts.length (majority attempts.length)
          (raceWithTimeout attempts T) 0 [] [] = .exhausted c res m)
    (hm : m ≠ []) :
    ∃ tz M, m.find? (fun e => e.2 == maxCount m) = some (tz, M) ∧ M = maxCount m ∧
      M = countTz res tz ∧
      m.map Prod.fst = firstOccurrences (res.map (·.timezone)) ∧
      getTimezoneByConsensus attempts T =
        .success ⟨some tz, (res.find? (fun r => r.timezone == tz)).map (·.geo),
          ((M : Nat) : ℚ) / (attempts.length : ℚ), c⟩ := by
  obtain ⟨tz, M, hf, hM, hcall⟩ := consensus_exhausted_char attempts T c res m h hm
  obtain ⟨hres, hc, hget, hpos, hnd, hkeys⟩ := exhausted_state_char attempts T c res m h
  refine ⟨tz, M, hf, hM, ?_, hkeys, hcall⟩
  have hmem : (tz, M) ∈ m := List.mem_of_find?_eq_some hf
  have := tallyGet_of_mem m tz M hnd hmem
  rw [← this]
  exact hget tz

/-- Witness for C2 (amended): on the 2–2 tie fixture the winner is
`Asia/Tokyo`, the first key of the tally map in insertion order. -/
theorem plurality_fallback_first_encountered_witness :
    getTimezoneByConsensus attsTie 100 =
      .success ⟨some "Asia/Tokyo", some gTok1, 2 / 5, 4⟩ := by
  obtain ⟨tz, M, hf, hM, hcnt, hkeys, hcall⟩ :=
    plurality_fallback_first_encountered attsTie 100 4 [rTok1, rSeo1, rSeo2, rTok2]
      [("Asia/Tokyo", 2), ("Asia/Seoul", 2)] (by decide) (by decide)
  have htz : tz = "Asia/Tokyo" ∧ M = 2 := by
    have : List.find?
        (fun e => e.2 == maxCount [("Asia/Tokyo", 2), ("Asia/Seoul", 2)])
        [("Asia/Tokyo", 2), ("Asia/Seoul", 2)] = some ("Asia/Tokyo", 2) := by decide
    rw [this] at hf
    injection hf with hf'
    exact ⟨congrArg Prod.fst hf' |>.symm, congrArg Prod.snd hf' |>.symm⟩
  obtain ⟨h1, h2⟩ := htz
  subst h1 h2
  simpa [rTok1, attsTie] using hcall

/-- C3: a consensus-mode call throws the all-providers-failed error if and
only if the supervised outcome stream contains no Observed outcome — in
particular an empty stream (deadline before any response) fails this way,
and a single Observed outcome anywhere in the stream guarantees a returned
result. -/
theorem allProvidersFailed_iff_no_observed (attempts : List TimedAttempt) (T : Nat) :
    getTimezoneByConsensus attempts T = .allFailed ↔
      ∀ o ∈ raceWithTimeout attempts T, o = none := by
  constructor
  · intro h
    rcases he : tallyLoop attempts.length (majority attempts.length)
        (raceWithTimeout attempts T) 0 [] [] with r | ⟨c, res, m⟩
    · simp only [getTimezoneByConsensus, he] at h
      exact absurd h (by simp)
    · obtain ⟨hc, hres, hm'⟩ := tallyLoop_exhausted_inv _ _ _ _ _ _ _ _ _ he
      simp only [getTimezoneByConsensus, he] at h
      by_cases hm : m.isEmpty
      · have hmnil : m = [] := by simpa [List.isEmpty_iff] using hm
        have hobs : observedOf (raceWithTimeout attempts T) = [] := by
          by_contra hne
          have : (observedOf (raceWithTimeout attempts T)).foldl tallyStep [] ≠ [] := by
            rcases hx : observedOf (raceWithTimeout attempts T) with _ | ⟨x, xs⟩
            · exact absurd hx hne
            · rw [List.foldl_cons]
              exact foldl_tallyStep_ne_nil _ _ (tallySet_ne_nil _ _ _)
          exact this (hm' ▸ hmnil)
        intro o ho
        have := (List.filterMap_eq_nil_iff.mp hobs) o ho
        simpa using this
      · rw [if_neg hm] at h
        exact absurd h (by simp)
  · intro h
    have hloop := tallyLoop_all_none attempts.length (majority attempts.length)
      (raceWithTimeout attempts T) 0 [] [] h
    simp only [getTimezoneByConsensus, hloop]
    rfl

/-- C4 (code bug): `getTimezoneFirst` wraps each attempt so that a failed
attempt rejects, then races them with `Promise.race`, which adopts the
FIRST settlement, rejection included.  With provider 1 failing at time 1
and provider 2 producing an Observed outcome at time 2, the call rejects
with 'Service failed' even though an Observed outcome exists — against the
claim and the function's own documentation, which promise the first
successful result. -/
theorem firstMode_rejects_on_first_absent :
    getTimezoneFirst attsFirstFail = .serviceFailed ∧
    (⟨2, some rLon2⟩ : TimedAttempt) ∈ attsFirstFail ∧
    (⟨2, some rLon2⟩ : TimedAttempt).outcome ≠ none := by
  refine ⟨by decide, by decide, by decide⟩

/-- C5 (counterexample): with an early-registered provider completing at
time 5 and a later-registered one completing at time 1, the loop yields the
fast provider's outcome only at time 5 (delivery times `[(5,·), (5,·)]`),
not at its completion time 1, and the yield order is registration order
`[rLon1, rPar4]`, not completion order `[rPar4, rLon1]`. -/
theorem raceWithTimeout_not_completion_order :
    deliverySchedule attsSlowFirst 100 0 = [(5, some rLon1), (5, some rPar4)] ∧
    attsSlowFirst = [⟨5, some rLon1⟩, ⟨1, some rPar4⟩] ∧
    (5 : Nat) ≠ 1 ∧
    raceWithTimeout attsSlowFirst 100 ≠ [some rPar4, some rLon1] := by
  refine ⟨by decide, by decide, by decide, by decide⟩

/-- C5 (amended): `raceWithTimeout` starts all fetches at once but the
loop awaits them in REGISTRATION order, each raced only against the total
deadline: the yielded values are exactly the longest registration-order
prefix of attempts completing before the deadline, and the i-th outcome is
delivered at the maximum of the first `i+1` completion times — so a fast
provider's outcome can wait behind a slower, earlier-registered one. -/
theorem raceWithTimeout_delivery_characterization (l : List TimedAttempt) (T : Nat) :
    raceWithTimeout l T =
      (l.takeWhile (fun a => decide (a.time < T))).map (·.outcome) ∧
    ∀ i, ∀ h : i < (deliverySchedule l T 0).length,
      ((deliverySchedule l T 0).get ⟨i, h⟩).1 =
        (l.take (i + 1)).foldl (fun x a => max x a.time) 0 :=
  ⟨deliverySchedule_yields l T 0, fun i h => deliverySchedule_times l T 0 i h⟩

/-- Witness for C5 (amended): on the two-provider fixture the second
yielded outcome is delivered at time 5 = max(5, 1), though its own fetch
completed at time 1. -/
theorem raceWithTimeout_delivery_characterization_witness :
    raceWithTimeout attsSlowFirst 100 = [some rLon1, some rPar4] ∧
    ((deliverySchedule attsSlowFirst 100 0).get ⟨1, by decide⟩).1 = 5 := by
  have h := raceWithTimeout_delivery_characterization attsSlowFirst 100
  refine ⟨?_, ?_⟩
  · rw [h.1]
    decide
  · rw [h.2 1 (by decide)]
    decide

/-- C6: whenever consensus mode returns a result, its confidence equals
`v / N` where `v` is the number of votes the winning identifier received
among the consumed observed outcomes and `N` is the number of REGISTERED
providers (`attempts.length`, not the number that responded), and the
confidence lies in `(0, 1]`. -/
theorem consensus_confidence_bounds (attempts : List TimedAttempt) (T : Nat)
    (r : ConsensusResult) (h : getTimezoneByConsensus attempts T = .success r) :
    0 < r.confidence ∧ r.confidence ≤ 1 ∧
    ∃ v : Nat, 1 ≤ v ∧ v ≤ attempts.length ∧
      r.confidence = (v : ℚ) / (attempts.length : ℚ) ∧
      ∃ tz, r.timezone = some tz ∧
      ∃ s₁ s₂, s₁ ++ s₂ = raceWithTimeout attempts T ∧
        v = countTz (observedOf s₁) tz := by
  have main : ∃ v : Nat, 1 ≤ v ∧ v ≤ attempts.length ∧
      r.confidence = (v : ℚ) / (attempts.length : ℚ) ∧
      ∃ tz, r.timezone = some tz ∧
      ∃ s₁ s₂, s₁ ++ s₂ = raceWithTimeout attempts T ∧
        v = countTz (observedOf s₁) tz := by
    rcases he : tallyLoop attempts.length (majority attempts.length)
        (raceWithTimeout attempts T) 0 [] [] with r' | ⟨c, res, m⟩
    · have hr : r' = r := by
        simp only [getTimezoneByConsensus, he] at h
        exact (ConsensusOutcome.success.injEq _ _).mp h
      subst hr
      obtain ⟨l₁, x, l₂, c₁, res₁, m₁, hsplit, hex, hmaj, hrval⟩ :=
        tallyLoop_early_split _ _ _ _ _ _ _ he
      obtain ⟨hc₁, hres₁, hm₁⟩ := tallyLoop_exhausted_inv _ _ _ _ _ _ _ _ _ hex
      have hv : tallyGet m₁ x.timezone = countTz (observedOf l₁) x.timezone := by
        rw [hm₁, tallyGet_foldl_tallyStep]
        simp [tallyGet]
      have hb1 : countTz (observedOf l₁) x.timezone ≤ (observedOf l₁).length :=
        List.countP_le_length _
      have hb2 : (observedOf l₁).length ≤ l₁.length := List.length_filterMap_le id l₁
      have hb3 : l₁.length + 1 ≤ (raceWithTimeout attempts T).length := by
        rw [hsplit]
        simp
      have hb4 : (raceWithTimeout attempts T).length ≤ attempts.length :=
        raceWithTimeout_length_le attempts T
      refine ⟨tallyGet m₁ x.timezone + 1, Nat.succ_le_succ (Nat.zero_le _),
        by omega, ?_, x.timezone, ?_, l₁ ++ [some x], l₂, ?_, ?_⟩
      · rw [hrval]
      · rw [hrval]
      · rw [hsplit]
        simp
      · rw [hv]
        simp [observedOf, countTz, List.filterMap_append, List.countP_append,
          List.countP_cons]
    · simp only [getTimezoneByConsensus, he] at h
      by_cases hmnil : m = []
      · rw [if_pos (by simp [hmnil])] at h
        exact absurd h (by simp)
      · obtain ⟨tz, M, hf, hM, hcall⟩ :=
          consensus_exhausted_char attempts T c res m he hmnil
        have hr : r = ⟨some tz,
            (res.find? (fun rr => rr.timezone == tz)).map (·.geo),
            ((M : Nat) : ℚ) / (attempts.length : ℚ), c⟩ := by
          have := hcall.symm.trans (by simpa only [getTimezoneByConsensus, he] using h)
          exact ((ConsensusOutcome.success.injEq _ _).mp this).symm
        obtain ⟨hres, hc, hget, hpos, hnd, hkeys⟩ := exhausted_state_char attempts T c res m he
        have hmem : (tz, M) ∈ m := List.mem_of_find?_eq_some hf
        have hMget : tallyGet m tz = M := tallyGet_of_mem m tz M hnd hmem
        have hM1 : 1 ≤ M := hpos _ hmem
        have hMcnt : M = countTz res tz := by rw [← hMget]; exact hget tz
        have hb1 : countTz res tz ≤ res.length := List.countP_le_length _
        have hb2 : res.length ≤ (raceWithTimeout attempts T).length := by
          rw [hres]
          exact List.length_filterMap_le id _
        have hb4 : (raceWithTimeout attempts T).length ≤ attempts.length :=
          raceWithTimeout_length_le attempts T
        refine ⟨M, hM1, by omega, ?_, tz, ?_, raceWithTimeout attempts T, [], by simp, ?_⟩
        · rw [hr]
        · rw [hr]
        · rw [← hres]
          exact hMcnt
  obtain ⟨v, hv1, hvn, hconf, hrest⟩ := main
  have hn : 0 < attempts.length := lt_of_lt_of_le hv1 hvn
  have hnq : (0 : ℚ) < (attempts.length : ℚ) := by exact_mod_cast hn
  have hvq : (0 : ℚ) < (v : ℚ) := by exact_mod_cast hv1
  refine ⟨?_, ?_, v, hv1, hvn, hconf, hrest⟩
  · rw [hconf]
    exact div_pos hvq hnq
  · rw [hconf, div_le_one hnq]
    exact_mod_cast hvn

/-- Witness for C6: the London fixture returns confidence 3/5, which is
positive and at most 1. -/
theorem consensus_confidence_bounds_witness :
    0 < ((3 : ℚ) / 5) ∧ ((3 : ℚ) / 5) ≤ 1 := by
  have h := consensus_confidence_bounds attsLondon 100
    ⟨some "Europe/London", some gLon3, 3 / 5, 3⟩
    (by simp [getTimezoneByConsensus, raceWithTimeout, deliverySchedule, tallyLoop,
      tallyGet, tallySet, majority, attsLondon, rLon1, rLon2, rLon3, rPar4, rPar5])
  exact ⟨h.1, h.2.1⟩

/-- C7 (counterexample): on a run where an Absent outcome arrives before
three agreeing Observed outcomes, the supervised stream delivers 4 outcomes
before the deadline, but the returned `sources` is 3: the Absent outcome
did NOT increment the counter (`if (!result) continue` skips it). -/
theorem sources_not_counting_absent_counterexample :
    (raceWithTimeout attsAbsent 8).length = 4 ∧
    getTimezoneByConsensus attsAbsent 8 =
      .success ⟨some "Europe/London", some gLon3, 3 / 5, 3⟩ ∧
    (3 : Nat) ≠ 4 := by
  refine ⟨by decide, ?_, by decide⟩
  simp [getTimezoneByConsensus, raceWithTimeout, deliverySchedule, tallyLoop, tallyGet,
    tallySet, majority, attsAbsent, rLon1, rLon2, rLon3, rPar4]

/-- C7 (amended): the `sources` field of a returned consensus result equals
the number of OBSERVED outcomes in the consumed prefix of the supervised
stream; Absent outcomes are skipped without incrementing the counter. -/
theorem sources_counts_observed_only (attempts : List TimedAttempt) (T : Nat)
    (r : ConsensusResult) (h : getTimezoneByConsensus attempts T = .success r) :
    ∃ s₁ s₂, s₁ ++ s₂ = raceWithTimeout attempts T ∧
      r.sources = (observedOf s₁).length := by
  rcases he : tallyLoop attempts.length (majority attempts.length)
      (raceWithTimeout attempts T) 0 [] [] with r' | ⟨c, res, m⟩
  · have hr : r' = r := by
      simp only [getTimezoneByConsensus, he] at h
      exact (ConsensusOutcome.success.injEq _ _).mp h
    subst hr
    obtain ⟨l₁, x, l₂, c₁, res₁, m₁, hsplit, hex, hmaj, hrval⟩ :=
      tallyLoop_early_split _ _ _ _ _ _ _ he
    obtain ⟨hc₁, hres₁, hm₁⟩ := tallyLoop_exhausted_inv _ _ _ _ _ _ _ _ _ hex
    refine ⟨l₁ ++ [some x], l₂, by rw [hsplit]; simp, ?_⟩
    rw [hrval]
    simp [observedOf, List.filterMap_append, hc₁]
  · simp only [getTimezoneByConsensus, he] at h
    by_cases hmnil : m = []
    · rw [if_pos (by simp [hmnil])] at h
      exact absurd h (by simp)
    · obtain ⟨hres, hc, hget, hpos, hnd, hkeys⟩ := exhausted_state_char attempts T c res m he
      refine ⟨raceWithTimeout attempts T, [], by simp, ?_⟩
      have hrs : r.sources = c := by
        rw [if_neg (by simpa [List.isEmpty_iff] using hmnil)] at h
        have := (ConsensusOutcome.success.injEq _ _).mp h
        rw [← this]
      rw [hrs, hc, hres]

/-- Witness for C7 (amended): on the Absent-first fixture the returned
`sources` is the number of Observed outcomes (3) in the consumed stream. -/
theorem sources_counts_observed_only_witness :
    ∃ s₁ s₂, s₁ ++ s₂ = raceWithTimeout attsAbsent 8 ∧
      (3 : Nat) = (observedOf s₁).length := by
  have h := sources_counts_observed_only attsAbsent 8
    ⟨some "Europe/London", some gLon3, 3 / 5, 3⟩
    (by simp [getTimezoneByConsensus, raceWithTimeout, deliverySchedule, tallyLoop,
      tallyGet, tallySet, majority, attsAbsent, rLon1, rLon2, rLon3, rPar4])
  simpa using h

/-- C8 (counterexample): three providers agree on `Europe/London` with
different location attributes; the majority threshold 2 is reached by the
SECOND outcome and the call returns that outcome's geo `gLon2`, not the
first-seen representative `gLon1` of the winning identifier. -/
theorem representative_geo_counterexample :
    getTimezoneByConsensus attsGeoDup 100 =
      .success ⟨some "Europe/London", some gLon2, 2 / 3, 2⟩ ∧
    (observedOf (raceWithTimeout attsGeoDup 100)).find?
        (fun r => r.timezone == "Europe/London") = some rLon1 ∧
    rLon1.geo = gLon1 ∧
    gLon1 ≠ gLon2 := by
  refine ⟨?_, by decide, by decide, by decide⟩
  simp [getTimezoneByConsensus, raceWithTimeout, deliverySchedule, tallyLoop, tallyGet,
    tallySet, majority, observedOf, attsGeoDup, rLon1, rLon2, rLon3]

/-- C8 (amended): the location attributes returned with the winning
identifier depend on the return path.  On the early-majority path they are
the geo of the outcome that TRIGGERED the majority (the latest vote for the
winner); only on the plurality-fallback path are they the first-seen
representative: `results.find` scans the observed results in arrival order
for the first one carrying the winning identifier. -/
theorem representative_geo_characterization (attempts : List TimedAttempt) (T : Nat) :
    (∀ l₁ x rest c res m,
      raceWithTimeout attempts T = l₁ ++ some x :: rest →
      tallyLoop attempts.length (majority attempts.length) l₁ 0 [] [] =
        .exhausted c res m →
      majority attempts.length ≤ tallyGet m x.timezone + 1 →
      ∃ r, getTimezoneByConsensus attempts T = .success r ∧ r.geo = some x.geo) ∧
    (∀ c res m,
      tallyLoop attempts.length (majority attempts.length)
        (raceWithTimeout attempts T) 0 [] [] = .exhausted c res m →
      m ≠ [] →
      ∃ r tz, getTimezoneByConsensus attempts T = .success r ∧ r.timezone = some tz ∧
        r.geo = (res.find? (fun rr => rr.timezone == tz)).map (·.geo) ∧
        res = observedOf (raceWithTimeout attempts T)) := by
  constructor
  · intro l₁ x rest c res m hs hl hm
    exact ⟨_, consensus_early_step attempts T l₁ x rest c res m hs hl hm, rfl⟩
  · intro c res m h hm
    obtain ⟨tz, M, hf, hM, hcall⟩ := consensus_exhausted_char attempts T c res m h hm
    obtain ⟨hres, _, _, _, _, _⟩ := exhausted_state_char attempts T c res m h
    exact ⟨_, tz, hcall, rfl, rfl, hres⟩

/-- Witness for C8 (amended): on the duplicate-geo fixture the early path
returns the triggering outcome's geo `gLon2`. -/
theorem representative_geo_characterization_witness :
    ∃ r, getTimezoneByConsensus attsGeoDup 100 = .success r ∧ r.geo = some gLon2 := by
  have h := (representative_geo_characterization attsGeoDup 100).1
    [some rLon1] rLon2 [some rLon3] 1 [rLon1] [("Europe/London", 1)]
    (by decide) (by decide) (by decide)
  simpa [rLon2] using h

/-- C9: an outcome that becomes available only at or after the total
deadline is never consumed: replacing any provider attempt whose completion
time is at least the deadline by an arbitrary attempt that still completes
at or after the deadline leaves the consensus result — identifier,
confidence, geo and sources — unchanged. -/
theorem late_outcomes_do_not_change_result (attempts : List TimedAttempt) (T : Nat)
    (i t' : Nat) (o' : Option FetchResult) (ht' : T ≤ t')
    (hi : ∀ h : i < attempts.length, T ≤ (attempts.get ⟨i, h⟩).time) :
    getTimezoneByConsensus (attempts.set i ⟨t', o'⟩) T =
      getTimezoneByConsensus attempts T := by
  have hrace : raceWithTimeout (attempts.set i ⟨t', o'⟩) T = raceWithTimeout attempts T := by
    unfold raceWithTimeout
    rw [deliverySchedule_set_late attempts T 0 i t' o' ht' hi]
  simp only [getTimezoneByConsensus, hrace, List.length_set]

/-- Witness for C9: replacing the straggler (completes at 9 ≥ 8) by a
different late answer does not change the result of the call with
deadline 8. -/
theorem late_outcomes_do_not_change_result_witness :
    getTimezoneByConsensus (attsLate.set 1 ⟨10, some rPar5⟩) 8 =
      getTimezoneByConsensus attsLate 8 :=
  late_outcomes_do_not_change_result attsLate 8 1 10 (some rPar5) (by decide)
    (fun h => by simp [attsLate])

theorem truthy_getD_ne_empty (o : Option String) (h : truthy o = true) :
    o.getD "" ≠ "" := by
  cases o with
  | none => simp [truthy] at h
  | some s =>
    simp only [truthy, Bool.not_eq_true'] at h
    simpa using beq_eq_false_iff_ne.mp h

/-- C10: `getTimezone` is total and always returns a non-empty string, for
every table content and every input record: the Cloudflare timezone when
truthy, else the truthy country+region table entry, else the truthy city
entry, else the truthy country entry, else the literal `'UTC'` — it never
produces `undefined` despite the documented return type
`string|undefined`. -/
theorem getTimezone_total_cascade (tbl : TimezoneTables) (geo : GeoInput) :
    getTimezone tbl geo ≠ "" ∧
    (truthy geo.cfTimezone = true → getTimezone tbl geo = geo.cfTimezone.getD "") ∧
    (truthy geo.cfTimezone = false → truthy (regionEntry tbl geo) = true →
      getTimezone tbl geo = (regionEntry tbl geo).getD "") ∧
    (truthy geo.cfTimezone = false → truthy (regionEntry tbl geo) = false →
      (truthy geo.city && truthy (tbl.CITY_TIMEZONE (geo.city.getD ""))) = true →
      getTimezone tbl geo = (tbl.CITY_TIMEZONE (geo.city.getD "")).getD "") ∧
    (truthy geo.cfTimezone = false → truthy (regionEntry tbl geo) = false →
      (truthy geo.city && truthy (tbl.CITY_TIMEZONE (geo.city.getD ""))) = false →
      (truthy geo.country && truthy (tbl.COUNTRY_TIMEZONE (geo.country.getD ""))) = true →
      getTimezone tbl geo = (tbl.COUNTRY_TIMEZONE (geo.country.getD "")).getD "") ∧
    (truthy geo.cfTimezone = false → truthy (regionEntry tbl geo) = false →
      (truthy geo.city && truthy (tbl.CITY_TIMEZONE (geo.city.getD ""))) = false →
      (truthy geo.country && truthy (tbl.COUNTRY_TIMEZONE (geo.country.getD ""))) = false →
      getTimezone tbl geo = "UTC") := by
  refine ⟨?_, ?_, ?_, ?_, ?_, ?_⟩
  · unfold getTimezone
    by_cases h1 : truthy geo.cfTimezone
    · simpa [h1] using truthy_getD_ne_empty _ h1
    · by_cases h2 : truthy (regionEntry tbl geo)
      · simpa [h1, h2] using truthy_getD_ne_empty _ h2
      · by_cases h3 : truthy geo.city && truthy (tbl.CITY_TIMEZONE (geo.city.getD ""))
        · simpa [h1, h2, h3] using
            truthy_getD_ne_empty _ (Bool.and_elim_right h3)
        · by_cases h4 : truthy geo.country &&
              truthy (tbl.COUNTRY_TIMEZONE (geo.country.getD ""))
          · simpa [h1, h2, h3, h4] using
              truthy_getD_ne_empty _ (Bool.and_elim_right h4)
          · simp [h1, h2, h3, h4]
  · intro h1
    simp [getTimezone, h1]
  · intro h1 h2
    simp [getTimezone, h1, h2]
  · intro h1 h2 h3
    simp [getTimezone, h1, h2, h3]
  · intro h1 h2 h3 h4
    simp [getTimezone, h1, h2, h3, h4]
  · intro h1 h2 h3 h4
    simp [getTimezone, h1, h2, h3, h4]

/-- Witness for C10: with empty tables and an all-undefined record, every
fallback fails and the result is the non-empty string `'UTC'`. -/
theorem getTimezone_total_cascade_witness :
    getTimezone tblEmpty geoEmpty = "UTC" ∧ getTimezone tblEmpty geoEmpty ≠ "" := by
  have h := getTimezone_total_cascade tblEmpty geoEmpty
  exact ⟨h.2.2.2.2.2 (by decide) (by decide) (by decide) (by decide), h.1⟩
